import Mathlib

/-!
Verification of the `gosh` interactive shell (the complete variant of
`app/main.go`): the quote- and escape-aware line tokenizer (`parseCommand`)
and the command resolution / dispatch logic (`evaluateCommand` with the
builtins `exit`, `echo`, `type`, `pwd`, `cd`, and the external-command
lookup `getExecutablePath`).

Ambient process state (environment variables, the filesystem, the working
directory, process spawning) is modelled by an explicit `World` record of
total functions; printing is modelled as a list of (stream, text) events;
`os.Exit` and Go's index-out-of-range panics are modelled as distinguished
outcomes.
-/

namespace Gosh

/-- Go: `var specialChars = []rune{'"', '\\'}`. -/
def specialChars : List Char := ['"', '\\']

/-- Go: `type Command struct { Exec string; Args []string }`. -/
structure Command where
  Exec : String
  Args : List String
deriving DecidableEq, Repr

/-- The mutable state of `parseCommand`'s scanning loop: the accumulated
tokens, the previous rune `prev` (the zero rune before the first iteration),
the in-progress builder `cur`, and the two quote flags. -/
structure ParseState where
  tokens : List String
  prev : Char
  cur : String
  seenSingleQuote : Bool
  seenDoubleQuote : Bool
deriving DecidableEq, Repr

/-- The `for i := 0; i < len(runes);` loop of `parseCommand`, one branch per
`case` of its `switch runes[i]`.  The loop is driven by a fuel argument only
so that the recursion is structural (each Go iteration consumes one or two
runes, so `runes.length` fuel is always enough); the fuel-exhausted branch is
never reached from `parseTokens`.  In the `'\\'` case the source tests
`i+1 < len(runes) && slices.Contains(specialChars, runes[i])` — note
`runes[i]`, the backslash itself, not `runes[i+1]` — and on success advances
`i` past the next rune before writing `runes[i]`, so that next rune is
written verbatim and skipped. -/
def parseLoop : Nat → List Char → ParseState → ParseState
  | _, [], st => st
  | 0, _ :: _, st => st
  | fuel + 1, c :: rest, st =>
    if c = '\'' then
      if st.seenDoubleQuote then
        parseLoop fuel rest { st with cur := st.cur.push c, prev := c }
      else
        parseLoop fuel rest { st with seenSingleQuote := !st.seenSingleQuote, prev := c }
    else if c = '"' then
      if st.seenSingleQuote then
        parseLoop fuel rest { st with cur := st.cur.push c, prev := c }
      else
        parseLoop fuel rest { st with seenDoubleQuote := !st.seenDoubleQuote, prev := c }
    else if c = '\\' then
      match rest with
      | d :: rest2 =>
        if !st.seenSingleQuote && specialChars.contains c then
          parseLoop fuel rest2 { st with cur := st.cur.push d, prev := d }
        else
          parseLoop fuel (d :: rest2) { st with cur := st.cur.push c, prev := c }
      | [] => parseLoop fuel [] { st with cur := st.cur.push c, prev := c }
    else if c = ' ' then
      if st.seenDoubleQuote || st.seenSingleQuote then
        parseLoop fuel rest { st with cur := st.cur.push c, prev := c }
      else if st.prev ≠ ' ' ∧ st.cur.length > 0 then
        parseLoop fuel rest { st with tokens := st.tokens ++ [st.cur], cur := "", prev := c }
      else
        parseLoop fuel rest { st with prev := c }
    else
      parseLoop fuel rest { st with cur := st.cur.push c, prev := c }

/-- The initial loop state: Go's zero values. -/
def initState : ParseState := ⟨[], Char.ofNat 0, "", false, false⟩

/-- The token list `parseCommand` builds: run the loop over `[]rune(rawCmd)`
from the zero state, then flush the final buffer if it is non-empty. -/
def parseTokens (rawCmd : String) : List String :=
  let runes := rawCmd.toList
  let st := parseLoop runes.length runes initState
  if st.cur.length > 0 then st.tokens ++ [st.cur] else st.tokens

/-- Go: `parseCommand` — `nil` (here `none`) when no token was produced,
otherwise `Exec` is the first token and `Args` the remaining tokens. -/
def parseCommand (rawCmd : String) : Option Command :=
  match parseTokens rawCmd with
  | [] => none
  | t :: ts => some ⟨t, ts⟩

/-- An output stream of the process. -/
inductive Dest
  | stdout
  | stderr
deriving DecidableEq, Repr

/-- One print: the stream written to and the exact text written. -/
abbrev Event := Dest × String

/-- Go: `strings.Join(elems, sep)`. -/
def goJoin (sep : String) : List String → String
  | [] => ""
  | [x] => x
  | x :: xs => x ++ sep ++ goJoin sep xs

/-- Whether `sub` occurs as a contiguous run inside `s`. -/
def containsSub : List Char → List Char → Bool
  | [], sub => sub.isEmpty
  | c :: rest, sub => sub.isPrefixOf (c :: rest) || containsSub rest sub

/-- Go: `strings.Contains(s, sub)`. -/
def goContains (s sub : String) : Bool := containsSub s.toList sub.toList

/-- Go: `strings.Split(s, string(sep))` for a one-rune separator: the runs
between occurrences of `sep`, empty runs kept, `[""]` for the empty string. -/
def splitOnCharList (sep : Char) : List Char → List (List Char)
  | [] => [[]]
  | c :: rest =>
    match splitOnCharList sep rest with
    | [] => if c = sep then [[], []] else [[c]]
    | g :: gs => if c = sep then [] :: g :: gs else (c :: g) :: gs

/-- Go: `strings.Split(s, string(sep))` (and `strings.SplitSeq`, which
yields the same pieces in order). -/
def goSplitChar (sep : Char) (s : String) : List String :=
  (splitOnCharList sep s.toList).map List.asString

/-- Go: `strings.HasPrefix(s, pre)`. -/
def goHasPrefix (s pre : String) : Bool := pre.toList.isPrefixOf s.toList

/-- Go: `strconv.Atoi` — an optional sign, then a non-empty run of decimal
digits, the value required to fit in a signed 64-bit int (`ErrRange`
otherwise); any other shape is `ErrSyntax`.  The error string is
`err.Error()` as `fmt` renders it. -/
def digitsVal : List Char → Nat → Option Nat
  | [], acc => some acc
  | c :: rest, acc =>
    if '0' ≤ c ∧ c ≤ '9' then digitsVal rest (acc * 10 + (c.toNat - 48)) else none

/-- Go: `strconv.Atoi(s)`; `.ok` the parsed value, `.error` the text of the
returned error. -/
def goAtoi (s : String) : Except String Int :=
  let syntaxErr := "strconv.Atoi: parsing \"" ++ s ++ "\": invalid syntax"
  let rangeErr := "strconv.Atoi: parsing \"" ++ s ++ "\": value out of range"
  match s.toList with
  | [] => .error syntaxErr
  | c :: rest =>
    let signAndDigits :=
      if c = '-' then (true, rest) else if c = '+' then (false, rest) else (false, c :: rest)
    match signAndDigits.2 with
    | [] => .error syntaxErr
    | ds =>
      match digitsVal ds 0 with
      | none => .error syntaxErr
      | some n =>
        let v : Int := if signAndDigits.1 then -(n : Int) else (n : Int)
        if v < -(2 ^ 63) ∨ 2 ^ 63 - 1 < v then .error rangeErr else .ok v

/-- The error of `os.ReadDir`: whether `os.IsNotExist` holds of it, and its
rendered text. -/
structure ReadDirErr where
  notExist : Bool
  msg : String
deriving DecidableEq, Repr

deriving instance DecidableEq for Except

/-- One entry of a directory listing: its name, whether it is a directory,
and the result of `entry.Info()` — the error text, or the permission bits
`info.Mode().Perm()`. -/
structure DirEntry where
  name : String
  isDir : Bool
  info : Except String Nat
deriving DecidableEq, Repr

/-- The error of `os.Chdir`: whether `os.IsNotExist` holds of it, and its
rendered text. -/
structure ChdirErr where
  notExist : Bool
  msg : String
deriving DecidableEq, Repr

/-- The ambient process state the shell touches, as a record of total
functions: environment variables, the filesystem as seen by `os.ReadDir`,
the working directory and `os.Chdir` / `filepath.Abs` / `os.Getwd`, and
spawning a child via `exec.Command(...).Output()`. -/
structure World where
  pathVar : Option String
  readDir : String → Except ReadDirErr (List DirEntry)
  homeVar : String
  cwd : String
  getwdErr : Option String
  absFn : String → Except String String
  chdir : String → Option ChdirErr
  execCmd : String → List String → Except String String

/-- What `getExecutablePath` returns: the joined path of the first hit, the
`error` it builds, or the `os.Exit(1)` taken when `PATH` is unset. -/
inductive LookupResult
  | found (path : String)
  | err (msg : String)
  | fatalExit
deriving DecidableEq, Repr

/-- The inner `for _, entry := range entries` loop of `getExecutablePath`:
directories are skipped, a failing `entry.Info()` prints a warning and
continues, and the loop stops at the first non-directory entry whose name
equals `file` and whose owner-executable bit `0100` is set. -/
def scanEntries (file : String) : List DirEntry → List Event × Bool
  | [] => ([], false)
  | e :: rest =>
    if e.isDir then scanEntries file rest
    else
      match e.info with
      | .error msg =>
        let r := scanEntries file rest
        ((.stderr, "Failed to get file info: " ++ msg ++ "\n") :: r.1, r.2)
      | .ok perm =>
        if e.name = file ∧ perm &&& 0o100 ≠ 0 then ([], true)
        else scanEntries file rest

/-- The outer `for dir := range dirs` loop of `getExecutablePath`: a
directory whose read fails with a non-`IsNotExist` error aborts the lookup
with `failed to read directory: ...`; an `IsNotExist` failure leaves no
entries to scan and moves on; a hit returns `dir + "/" + file`. -/
def searchDirs (w : World) (file : String) : List String → List Event × LookupResult
  | [] => ([], .err (file ++ ": not found"))
  | dir :: rest =>
    match w.readDir dir with
    | .error e =>
      if e.notExist then searchDirs w file rest
      else ([], .err ("failed to read directory: " ++ e.msg))
    | .ok entries =>
      let s := scanEntries file entries
      if s.2 then (s.1, .found (dir ++ "/" ++ file))
      else
        let r := searchDirs w file rest
        (s.1 ++ r.1, r.2)

/-- Go: `string(os.PathListSeparator)` on Unix. -/
def pathListSeparator : Char := ':'


/-- Go: `getExecutablePath` — `os.LookupEnv("PATH")` (unset is fatal), split
on the path-list separator, then scan the directories in order. -/
def getExecutablePath (w : World) (file : String) : List Event × LookupResult :=
  match w.pathVar with
  | none => ([(.stderr, "'PATH' env is not set\n")], .fatalExit)
  | some path => searchDirs w file (goSplitChar pathListSeparator path)

/-- The observable result of handling one command: a normal return (with
`some` new working directory exactly when `os.Chdir` succeeded), process
termination through `os.Exit`, or a Go runtime panic (an index out of
range). -/
inductive Outcome
  | normal (events : List Event) (newCwd : Option String)
  | exited (code : Int) (events : List Event)
  | panicked (events : List Event)
deriving DecidableEq, Repr

/-- Go: `executeExitCmd` — no arguments exits 0; otherwise `strconv.Atoi`
of the first argument, exiting with the parsed code, or printing to stderr
(`fmt.Fprintln` with two operands: one separating space, trailing newline)
and exiting 1 on a parse error. -/
def executeExitCmd (cmd : Command) : Outcome :=
  match cmd.Args with
  | [] => .exited 0 []
  | a :: _ =>
    match goAtoi a with
    | .ok code => .exited code []
    | .error e => .exited 1 [(.stderr, "Error reading exit code:  " ++ e ++ "\n")]

/-- Go: `executeEchoCmd` — `fmt.Println(strings.Join(cmd.Args, " "))`. -/
def executeEchoCmd (cmd : Command) : Outcome :=
  .normal [(.stdout, goJoin " " cmd.Args ++ "\n")] none

/-- The names `executeTypeCmd`'s switch recognises as builtins. -/
def builtins : List String := ["exit", "echo", "type", "pwd", "cd"]

/-- Go: `executeTypeCmd` — switches on `cmd.Args[0]` (a panic when `Args` is
empty), reporting a builtin, the resolved path, or the lookup's error. -/
def executeTypeCmd (w : World) (cmd : Command) : Outcome :=
  match cmd.Args with
  | [] => .panicked []
  | a :: _ =>
    if builtins.contains a then .normal [(.stdout, a ++ " is a shell builtin\n")] none
    else
      match getExecutablePath w a with
      | (evs, .fatalExit) => .exited 1 evs
      | (evs, .err e) => .normal (evs ++ [(.stderr, e ++ "\n")]) none
      | (evs, .found p) => .normal (evs ++ [(.stdout, a ++ " is " ++ p ++ "\n")]) none

/-- Go: `executePwdCmd` — prints `os.Getwd()`, or its error to stderr. -/
def executePwdCmd (w : World) : Outcome :=
  match w.getwdErr with
  | some e => .normal [(.stderr, e ++ "\n")] none
  | none => .normal [(.stdout, w.cwd ++ "\n")] none

/-- Go: `executeCdCmd` — `filepath.Abs(cmd.Args[0])` (a panic when `Args` is
empty), the literal argument `~` overridden to `os.Getenv("HOME")`, then
`os.Chdir`; `IsNotExist` prints the specific `cd:` message (over
`strings.Join(cmd.Args, " ")`), any other error its raw text. -/
def executeCdCmd (w : World) (cmd : Command) : Outcome :=
  match cmd.Args with
  | [] => .panicked []
  | a :: _ =>
    match w.absFn a with
    | .error e => .normal [(.stderr, e ++ "\n")] none
    | .ok abs0 =>
      let absPath := if a = "~" then w.homeVar else abs0
      match w.chdir absPath with
      | none => .normal [] (some absPath)
      | some e =>
        if e.notExist then
          .normal [(.stderr, "cd: " ++ goJoin " " cmd.Args ++ ": No such file or directory\n")] none
        else
          .normal [(.stderr, e.msg ++ "\n")] none

/-- What `runProgram` produces: the `os.Exit(1)` taken inside the lookup
when `PATH` is unset, or its events and boolean return value. -/
inductive RunProgramResult
  | exitedP (events : List Event)
  | done (events : List Event) (ok : Bool)
deriving DecidableEq, Repr

/-- Go: `runProgram` — resolve `cmd.Exec`; a lookup error whose text does
not contain "not found" is printed; on a hit, spawn the child and print its
captured stdout verbatim (`fmt.Print`), or the spawn error. -/
def runProgram (w : World) (cmd : Command) : RunProgramResult :=
  match getExecutablePath w cmd.Exec with
  | (evs, .fatalExit) => .exitedP evs
  | (evs, .err e) =>
    .done (evs ++ if goContains e "not found" then [] else [(.stderr, e ++ "\n")]) false
  | (evs, .found _) =>
    match w.execCmd cmd.Exec cmd.Args with
    | .error e => .done (evs ++ [(.stderr, e ++ "\n")]) false
    | .ok out => .done (evs ++ [(.stdout, out)]) true

/-- The final `else` of `evaluateCommand`: run the external program, and
print `<command>: command not found` to stdout when `runProgram` returned
false. -/
def runExternal (w : World) (command : String) (cmd : Command) : Outcome :=
  match runProgram w cmd with
  | .exitedP evs => .exited 1 evs
  | .done evs true => .normal evs none
  | .done evs false => .normal (evs ++ [(.stdout, command ++ ": command not found\n")]) none

/-- Go: `evaluateCommand` — a `nil` parse exits 0; then the if/else chain:
`strings.HasPrefix` for `exit`, `echo`, `type`, exact equality for `pwd`,
`strings.HasPrefix` for `cd`, and otherwise the external branch. -/
def evaluateCommand (w : World) (command : String) : Outcome :=
  match parseCommand command with
  | none => .exited 0 []
  | some cmd =>
    if goHasPrefix command "exit" then executeExitCmd cmd
    else if goHasPrefix command "echo" then executeEchoCmd cmd
    else if goHasPrefix command "type" then executeTypeCmd w cmd
    else if command = "pwd" then executePwdCmd w
    else if goHasPrefix command "cd" then executeCdCmd w cmd
    else runExternal w command cmd

/-- The branch of `evaluateCommand`'s if/else chain a line falls into, in
the source's order. -/
inductive Cls
  | exitB
  | echoB
  | typeB
  | pwdB
  | cdB
  | external
deriving DecidableEq, Repr

/-- The dispatch decision of `evaluateCommand`, read off its if/else chain. -/
def classifyLine (command : String) : Cls :=
  if goHasPrefix command "exit" then .exitB
  else if goHasPrefix command "echo" then .echoB
  else if goHasPrefix command "type" then .typeB
  else if command = "pwd" then .pwdB
  else if goHasPrefix command "cd" then .cdB
  else .external

/-- The working directory after an outcome: `cd`'s successful `os.Chdir`
moved the process there, every other outcome leaves it where it was. -/
def finalCwd (w : World) (o : Outcome) : String :=
  match o with
  | .normal _ (some d) => d
  | .normal _ none => w.cwd
  | .exited _ _ => w.cwd
  | .panicked _ => w.cwd

/-- Stated from the specification: whether a directory entry is a hit for
`file` — not a directory, named exactly `file`, and with the
owner-executable permission bit `0100` set. -/
def entryMatches (file : String) (e : DirEntry) : Bool :=
  !e.isDir && e.name == file &&
    (match e.info with
     | .ok perm => (perm &&& 0o100) != 0
     | .error _ => false)

/-- Stated from the specification: scan the search-path directories in
order; a nonexistent directory is silently skipped, any other read error
aborts the lookup as an error, and the first directory holding a matching
entry wins with `dir + "/" + file`. -/
def lookupFirst (w : World) (file : String) : List String → LookupResult
  | [] => .err (file ++ ": not found")
  | dir :: rest =>
    match w.readDir dir with
    | .error e =>
      if e.notExist then lookupFirst w file rest
      else .err ("failed to read directory: " ++ e.msg)
    | .ok entries =>
      if entries.any (entryMatches file) then .found (dir ++ "/" ++ file)
      else lookupFirst w file rest

/-- A small concrete world used to instantiate the theorems: a `PATH` of a
missing directory and a `bin` holding an executable `ls`, a home directory,
and a filesystem where only `/home/user` and `/start` exist for `chdir`. -/
def wEx : World :=
  { pathVar := some "missing:bin"
  , readDir := fun d =>
      if d = "bin" then .ok [⟨"sub", true, .ok 493⟩, ⟨"ls", false, .ok 493⟩]
      else .error ⟨true, "open " ++ d ++ ": no such file or directory"⟩
  , homeVar := "/home/user"
  , cwd := "/start"
  , getwdErr := none
  , absFn := fun s => .ok (if goHasPrefix s "/" then s else "/start/" ++ s)
  , chdir := fun p =>
      if p = "/home/user" ∨ p = "/start" then none
      else some ⟨true, "chdir " ++ p ++ ": no such file or directory"⟩
  , execCmd := fun _ _ => .ok "out\n" }

/-! ### Helper lemmas -/

theorem length_pos_ne_empty (s : String) (h : 0 < s.length) : s ≠ "" := by
  intro e
  subst e
  simp at h

theorem goJoin_go (s : String) : ∀ (ys : List String) (a b : String),
    String.intercalate.go (a ++ b) s ys = a ++ String.intercalate.go b s ys := by
  intro ys
  induction ys with
  | nil => intro a b; simp [String.intercalate.go]
  | cons z zs ih =>
    intro a b
    simp only [String.intercalate.go]
    rw [← ih]
    simp [String.append_assoc]

theorem goJoin_eq_intercalate (s : String) : ∀ xs, goJoin s xs = String.intercalate s xs := by
  intro xs
  cases xs with
  | nil => rfl
  | cons x ys =>
    induction ys generalizing x with
    | nil => simp [goJoin, String.intercalate, String.intercalate.go]
    | cons y zs ih =>
      show x ++ s ++ goJoin s (y :: zs) = String.intercalate.go x s (y :: zs)
      rw [ih y]
      show x ++ s ++ String.intercalate.go y s zs = String.intercalate.go (x ++ s ++ y) s zs
      rw [goJoin_go s zs (x ++ s) y]

theorem parseLoop_tokens_nonempty : ∀ (fuel : Nat) (cs : List Char) (st : ParseState),
    (∀ t ∈ st.tokens, t ≠ "") → ∀ t ∈ (parseLoop fuel cs st).tokens, t ≠ "" := by
  intro fuel
  induction fuel with
  | zero => intro cs st h; cases cs <;> simpa [parseLoop] using h
  | succ fuel ih =>
    intro cs st h
    cases cs with
    | nil => simpa [parseLoop] using h
    | cons c rest =>
      cases rest with
      | nil =>
        simp only [parseLoop]
        split_ifs <;>
          first
          | exact h
          | (intro t ht
             rcases List.mem_append.mp ht with ht | ht
             · exact h t ht
             · have hc : st.prev ≠ ' ' ∧ st.cur.length > 0 := by assumption
               rw [List.mem_singleton.mp ht]
               exact length_pos_ne_empty _ hc.2)
      | cons d rest2 =>
        simp only [parseLoop]
        split_ifs <;>
          first
          | exact ih _ _ h
          | (refine ih _ _ ?_
             intro t ht
             rcases List.mem_append.mp ht with ht | ht
             · exact h t ht
             · have hc : st.prev ≠ ' ' ∧ st.cur.length > 0 := by assumption
               rw [List.mem_singleton.mp ht]
               exact length_pos_ne_empty _ hc.2)

theorem parseLoop_spaces : ∀ (fuel : Nat) (cs : List Char) (st : ParseState),
    (∀ c ∈ cs, c = ' ') →
    st.seenSingleQuote = false → st.seenDoubleQuote = false → st.cur = "" →
    (parseLoop fuel cs st).tokens = st.tokens ∧ (parseLoop fuel cs st).cur = "" := by
  intro fuel
  induction fuel with
  | zero => intro cs st _ _ _ hcur; cases cs <;> simp [parseLoop, hcur]
  | succ fuel ih =>
    intro cs st hsp hsq hdq hcur
    cases cs with
    | nil => simp [parseLoop, hcur]
    | cons c rest =>
      have hc : c = ' ' := hsp c (by simp)
      subst hc
      have hrest : ∀ c ∈ rest, c = ' ' := fun c hc => hsp c (by simp [hc])
      simp [parseLoop, hsq, hdq, hcur]
      simpa using ih rest ⟨st.tokens, ' ', "", false, false⟩ hrest rfl rfl rfl

theorem parseTokens_eq (s : String) :
    parseTokens s =
      (if (parseLoop s.toList.length s.toList initState).cur.length > 0
       then (parseLoop s.toList.length s.toList initState).tokens
          ++ [(parseLoop s.toList.length s.toList initState).cur]
       else (parseLoop s.toList.length s.toList initState).tokens) := rfl

theorem parseTokens_nonempty (s : String) : ∀ t ∈ parseTokens s, t ≠ "" := by
  intro t ht
  rw [parseTokens_eq] at ht
  have hinit : ∀ t ∈ initState.tokens, t ≠ "" := by intro t ht; simp [initState] at ht
  by_cases hl : (parseLoop s.toList.length s.toList initState).cur.length > 0
  · rw [if_pos hl] at ht
    rcases List.mem_append.mp ht with h | h
    · exact parseLoop_tokens_nonempty _ _ _ hinit t h
    · rw [List.mem_singleton.mp h]
      exact length_pos_ne_empty _ hl
  · rw [if_neg hl] at ht
    exact parseLoop_tokens_nonempty _ _ _ hinit t ht

theorem parseTokens_spaces (s : String) (h : ∀ c ∈ s.toList, c = ' ') : parseTokens s = [] := by
  have hps := parseLoop_spaces s.toList.length s.toList initState h rfl rfl rfl
  rw [parseTokens_eq, hps.2]
  simp only [String.length_empty, gt_iff_lt, lt_self_iff_false, if_false]
  simpa [initState] using hps.1

theorem evaluateCommand_classified (w : World) (command : String) :
    evaluateCommand w command =
      match parseCommand command with
      | none => Outcome.exited 0 []
      | some cmd =>
        match classifyLine command with
        | Cls.exitB => executeExitCmd cmd
        | Cls.echoB => executeEchoCmd cmd
        | Cls.typeB => executeTypeCmd w cmd
        | Cls.pwdB => executePwdCmd w
        | Cls.cdB => executeCdCmd w cmd
        | Cls.external => runExternal w command cmd := by
  unfold evaluateCommand classifyLine
  cases parseCommand command with
  | none => rfl
  | some cmd => split_ifs <;> rfl

theorem goHasPrefix_excl {s : String} (p q : String)
    (h1 : goHasPrefix s p = true)
    (h2 : ¬(p.toList <+: q.toList)) (h3 : ¬(q.toList <+: p.toList)) :
    goHasPrefix s q = false := by
  unfold goHasPrefix at h1 ⊢
  rw [ List.isPrefixOf_iff_prefix] at h1
  by_contra hq
  rw [Bool.not_eq_false, List.isPrefixOf_iff_prefix] at hq
  rcases List.prefix_or_prefix_of_prefix h1 hq with hc | hc
  · exact h2 hc
  · exact h3 hc

theorem ne_of_goHasPrefix {s x p : String}
    (h : goHasPrefix s p = true) (hx : goHasPrefix x p = false) : s ≠ x := by
  intro he
  subst he
  rw [h] at hx
  cases hx

/-! ### The claims -/

/-- C1: the tokenizer was meant to let a backslash outside single quotes
consume the next character only when that character is special (`"` or
`\\`), but the source tests `slices.Contains(specialChars, runes[i])` on
`runes[i]` — the backslash itself, always special — instead of `runes[i+1]`.
So on the line `\a` the backslash consumes the non-special `a` and the token
is `a`, where the claimed rule yields `\a`: evaluated here at that failing
input. -/
theorem backslash_consumes_any_next_char :
    parseCommand "\\a" = some ⟨"a", []⟩
    ∧ specialChars.contains 'a' = false
    ∧ parseCommand "\\a" ≠ some ⟨"\\a", []⟩ := by decide

/-- C3: a single quote scanned while the double-quote flag is on is pushed
on the buffer as a literal with both flags untouched; otherwise it only
toggles the single-quote flag and is not emitted; a double quote behaves
symmetrically with respect to the single-quote flag. -/
theorem quote_chars_toggle_or_literal (fuel : Nat) (rest : List Char) (st : ParseState) :
    (st.seenDoubleQuote = true →
      parseLoop (fuel + 1) ('\'' :: rest) st
        = parseLoop fuel rest { st with cur := st.cur.push '\'', prev := '\'' })
    ∧ (st.seenDoubleQuote = false →
      parseLoop (fuel + 1) ('\'' :: rest) st
        = parseLoop fuel rest { st with seenSingleQuote := !st.seenSingleQuote, prev := '\'' })
    ∧ (st.seenSingleQuote = true →
      parseLoop (fuel + 1) ('"' :: rest) st
        = parseLoop fuel rest { st with cur := st.cur.push '"', prev := '"' })
    ∧ (st.seenSingleQuote = false →
      parseLoop (fuel + 1) ('"' :: rest) st
        = parseLoop fuel rest { st with seenDoubleQuote := !st.seenDoubleQuote, prev := '"' }) := by
  refine ⟨fun h => ?_, fun h => ?_, fun h => ?_, fun h => ?_⟩ <;> simp [parseLoop, h]

/-- Witness for C3: the four cases at concrete states — a single quote
toggles the flag from the start state, is literal inside double quotes, and
the double quote symmetrically. -/
theorem quote_chars_toggle_or_literal_witness :
    parseLoop 1 ['\''] initState = ⟨[], '\'', "", true, false⟩
    ∧ parseLoop 1 ['\''] ⟨[], Char.ofNat 0, "", false, true⟩ = ⟨[], '\'', "'", false, true⟩
    ∧ parseLoop 1 ['"'] initState = ⟨[], '"', "", false, true⟩
    ∧ parseLoop 1 ['"'] ⟨[], Char.ofNat 0, "", true, false⟩ = ⟨[], '"', "\"", true, false⟩ :=
  ⟨((quote_chars_toggle_or_literal 0 [] initState).2.1 rfl).trans (by decide),
   ((quote_chars_toggle_or_literal 0 [] ⟨[], Char.ofNat 0, "", false, true⟩).1 rfl).trans
     (by decide),
   ((quote_chars_toggle_or_literal 0 [] initState).2.2.2 rfl).trans (by decide),
   ((quote_chars_toggle_or_literal 0 [] ⟨[], Char.ofNat 0, "", true, false⟩).2.2.1 rfl).trans
     (by decide)⟩

/-- C4: a space scanned under an active quote flag is a literal appended to
the buffer; a space outside quotes with an empty buffer flushes nothing; no
token of any tokenization is the empty string; and a line of only spaces
(the empty line included) tokenizes to no tokens. -/
theorem space_flush_no_empty_tokens :
    (∀ (fuel : Nat) (rest : List Char) (st : ParseState),
        (st.seenDoubleQuote || st.seenSingleQuote) = true →
        parseLoop (fuel + 1) (' ' :: rest) st
          = parseLoop fuel rest { st with cur := st.cur.push ' ', prev := ' ' })
    ∧ (∀ (fuel : Nat) (rest : List Char) (st : ParseState),
        st.seenDoubleQuote = false → st.seenSingleQuote = false → st.cur = "" →
        parseLoop (fuel + 1) (' ' :: rest) st = parseLoop fuel rest { st with prev := ' ' })
    ∧ (∀ s t, t ∈ parseTokens s → t ≠ "")
    ∧ (∀ s, (∀ c ∈ s.toList, c = ' ') → parseTokens s = []) := by
  refine ⟨fun fuel rest st h => ?_, fun fuel rest st hdq hsq hcur => ?_,
    parseTokens_nonempty, parseTokens_spaces⟩
  · simp [parseLoop, h]
  · simp [parseLoop, hdq, hsq, hcur]

/-- Witness for C4: a space is appended inside single quotes, a leading
space flushes nothing, `a` tokenizes to one non-empty token, and two bare
spaces tokenize to nothing. -/
theorem space_flush_no_empty_tokens_witness :
    parseLoop 1 [' '] ⟨[], Char.ofNat 0, "a", true, false⟩ = ⟨[], ' ', "a ", true, false⟩
    ∧ parseLoop 1 [' '] initState = ⟨[], ' ', "", false, false⟩
    ∧ ("a" ∈ parseTokens "a" ∧ "a" ≠ "")
    ∧ parseTokens "  " = [] :=
  ⟨(space_flush_no_empty_tokens.1 0 [] ⟨[], Char.ofNat 0, "a", true, false⟩ rfl).trans
     (by decide),
   (space_flush_no_empty_tokens.2.1 0 [] initState rfl rfl rfl).trans (by decide),
   ⟨by decide, space_flush_no_empty_tokens.2.2.1 "a" "a" (by decide)⟩,
   space_flush_no_empty_tokens.2.2.2 "  " (by decide)⟩

/-- C8: `echo` prints its arguments joined by single spaces followed by one
newline to stdout, and with no arguments prints exactly one empty line. -/
theorem echo_joins_args_newline (cmd : Command) :
    executeEchoCmd cmd
      = .normal [(.stdout, String.intercalate " " cmd.Args ++ "\n")] none
    ∧ executeEchoCmd ⟨cmd.Exec, []⟩ = .normal [(.stdout, "\n")] none := by
  constructor
  · simp [executeEchoCmd, goJoin_eq_intercalate]
  · rfl

/-- C9: a line whose tokenization is empty — in particular the empty line
and every all-space line — makes `evaluateCommand` take the `nil`-command
branch and exit the whole process with code 0 (printing nothing), instead
of returning to the read loop. -/
theorem empty_line_exits_zero (w : World) (s : String) :
    (parseTokens s = [] → evaluateCommand w s = .exited 0 [])
    ∧ ((∀ c ∈ s.toList, c = ' ') → evaluateCommand w s = .exited 0 []) := by
  have key : parseTokens s = [] → evaluateCommand w s = .exited 0 [] := by
    intro h
    simp [evaluateCommand, parseCommand, h]
  exact ⟨key, fun h => key (parseTokens_spaces s h)⟩

/-- Witness for C9: the empty line and a two-space line both exit 0. -/
theorem empty_line_exits_zero_witness :
    evaluateCommand wEx "" = .exited 0 [] ∧ evaluateCommand wEx "  " = .exited 0 [] :=
  ⟨(empty_line_exits_zero wEx "").1 (by decide),
   (empty_line_exits_zero wEx "  ").2 (by decide)⟩

/-- C10: a line that dispatches to the `type` or `cd` builtin but parses to
zero argument tokens reaches `cmd.Args[0]` on an empty slice, so the total
embedding returns the panic outcome: the no-argument case is not handled
before the access. -/
theorem noarg_type_cd_panics (w : World) (command : String) (cmd : Command)
    (hp : parseCommand command = some cmd) (ha : cmd.Args = []) :
    (classifyLine command = Cls.typeB → evaluateCommand w command = .panicked [])
    ∧ (classifyLine command = Cls.cdB → evaluateCommand w command = .panicked []) := by
  have heval := evaluateCommand_classified w command
  rw [hp] at heval
  rcases cmd with ⟨e, args⟩
  simp only at ha
  subst ha
  constructor
  · intro hcls
    rw [heval, hcls]
    rfl
  · intro hcls
    rw [heval, hcls]
    rfl

/-- Witness for C10: the bare lines `type` and `cd` both panic. -/
theorem noarg_type_cd_panics_witness :
    evaluateCommand wEx "type" = .panicked [] ∧ evaluateCommand wEx "cd" = .panicked [] :=
  ⟨(noarg_type_cd_panics wEx "type" ⟨"type", []⟩ (by decide) rfl).1 (by decide),
   (noarg_type_cd_panics wEx "cd" ⟨"cd", []⟩ (by decide) rfl).2 (by decide)⟩

/-- C2: the dispatcher follows the raw-line classification: `pwd` fires
exactly on the full line `pwd`, while a line starting with `exit`, `echo`,
`type` or `cd` always fires that builtin (string prefix, not first-token
equality); and a line that falls to the external branch whose lookup
returns an error ends with `<command>: command not found` printed to
stdout. -/
theorem dispatch_prefix_and_not_found (w : World) (command : String) :
    (evaluateCommand w command =
      match parseCommand command with
      | none => Outcome.exited 0 []
      | some cmd =>
        match classifyLine command with
        | Cls.exitB => executeExitCmd cmd
        | Cls.echoB => executeEchoCmd cmd
        | Cls.typeB => executeTypeCmd w cmd
        | Cls.pwdB => executePwdCmd w
        | Cls.cdB => executeCdCmd w cmd
        | Cls.external => runExternal w command cmd)
    ∧ (classifyLine command = Cls.pwdB ↔ command = "pwd")
    ∧ (goHasPrefix command "exit" = true → classifyLine command = Cls.exitB)
    ∧ (goHasPrefix command "echo" = true → classifyLine command = Cls.echoB)
    ∧ (goHasPrefix command "type" = true → classifyLine command = Cls.typeB)
    ∧ (goHasPrefix command "cd" = true → classifyLine command = Cls.cdB)
    ∧ (∀ cmd m, parseCommand command = some cmd → classifyLine command = Cls.external →
        (getExecutablePath w cmd.Exec).2 = LookupResult.err m →
        ∃ evs, evaluateCommand w command
          = .normal (evs ++ [(.stdout, command ++ ": command not found\n")]) none) := by
  refine ⟨evaluateCommand_classified w command, ?_, ?_, ?_, ?_, ?_, ?_⟩
  · constructor
    · intro h
      unfold classifyLine at h
      split_ifs at h <;> simp_all
    · intro h
      subst h
      decide
  · intro h
    simp [classifyLine, h]
  · intro h
    have hx := goHasPrefix_excl "echo" "exit" h (by decide) (by decide)
    simp [classifyLine, h, hx]
  · intro h
    have hx1 := goHasPrefix_excl "type" "exit" h (by decide) (by decide)
    have hx2 := goHasPrefix_excl "type" "echo" h (by decide) (by decide)
    simp [classifyLine, h, hx1, hx2]
  · intro h
    have hx1 := goHasPrefix_excl "cd" "exit" h (by decide) (by decide)
    have hx2 := goHasPrefix_excl "cd" "echo" h (by decide) (by decide)
    have hx3 := goHasPrefix_excl "cd" "type" h (by decide) (by decide)
    have hp : command ≠ "pwd" := ne_of_goHasPrefix h (by decide)
    simp [classifyLine, h, hx1, hx2, hx3, hp]
  · intro cmd m hp hcls hlook
    have he := evaluateCommand_classified w command
    rw [hp, hcls] at he
    rcases hget : getExecutablePath w cmd.Exec with ⟨evs0, r⟩
    rw [hget] at hlook
    simp only at hlook
    subst hlook
    refine ⟨evs0 ++ (if goContains m "not found" then [] else [(.stderr, m ++ "\n")]), ?_⟩
    rw [he]
    simp [runExternal, runProgram, hget]

/-- Witness for C2: `pwd` classifies as the pwd builtin, `cd /tmp` as cd,
and the unknown line `zzz` prints its not-found message. -/
theorem dispatch_prefix_and_not_found_witness :
    classifyLine "pwd" = Cls.pwdB
    ∧ classifyLine "cd /tmp" = Cls.cdB
    ∧ ∃ evs, evaluateCommand wEx "zzz"
        = .normal (evs ++ [(.stdout, "zzz: command not found\n")]) none :=
  ⟨(dispatch_prefix_and_not_found wEx "pwd").2.1.mpr rfl,
   (dispatch_prefix_and_not_found wEx "cd /tmp").2.2.2.2.2.1 (by decide),
   (dispatch_prefix_and_not_found wEx "zzz").2.2.2.2.2.2 ⟨"zzz", []⟩ "zzz: not found"
     (by decide) (by decide) (by decide)⟩

theorem scanEntries_found (file : String) : ∀ entries : List DirEntry,
    (scanEntries file entries).2 = entries.any (entryMatches file) := by
  intro entries
  induction entries with
  | nil => rfl
  | cons e rest ih =>
    simp only [scanEntries, List.any_cons]
    cases hd : e.isDir
    · cases hinfo : e.info with
      | error msg => simp [hd, hinfo, entryMatches, ih]
      | ok perm =>
        by_cases hm : e.name = file ∧ perm &&& 0o100 ≠ 0
        · simp [hd, hinfo, hm, entryMatches, hm.1, hm.2]
        · have hematch : entryMatches file e = false := by
            cases hem : entryMatches file e
            · rfl
            · exfalso
              apply hm
              simp [entryMatches, hinfo, hd] at hem
              exact hem
          simp [hd, hinfo, if_neg hm, hematch, ih]
    · simp [hd, entryMatches, ih]

theorem searchDirs_eq (w : World) (file : String) : ∀ dirs : List String,
    (searchDirs w file dirs).2 = lookupFirst w file dirs := by
  intro dirs
  induction dirs with
  | nil => rfl
  | cons dir rest ih =>
    simp only [searchDirs, lookupFirst]
    cases hr : w.readDir dir with
    | error e => cases hn : e.notExist <;> simp [hn, ih]
    | ok entries =>
      have hany := scanEntries_found file entries
      cases hs : (scanEntries file entries).2
      · rw [hs] at hany
        simp [hs, ← hany, ih]
      · rw [hs] at hany
        simp [hs, ← hany]

/-- C5: with `PATH` set, the external lookup is exactly the claimed
first-match scan — directories of the split path in order, a nonexistent
directory silently skipped, any other read failure surfaced as an error,
and the first directory holding a non-directory entry named `file` with the
owner-executable bit `0100` set winning with `dir/file`. -/
theorem lookup_is_first_match (w : World) (file p : String) (h : w.pathVar = some p) :
    (getExecutablePath w file).2
      = lookupFirst w file (goSplitChar pathListSeparator p) := by
  unfold getExecutablePath
  rw [h]
  exact searchDirs_eq w file _

/-- Witness for C5: in the example world (a nonexistent `missing` followed
by `bin` holding executable `ls`) the code's lookup and the claimed
first-match scan agree, both resolving `ls` to `bin/ls`, and failing for
`zzz`. -/
theorem lookup_is_first_match_witness :
    wEx.pathVar = some "missing:bin"
    ∧ (getExecutablePath wEx "ls").2
        = lookupFirst wEx "ls" (goSplitChar pathListSeparator "missing:bin")
    ∧ (getExecutablePath wEx "ls").2 = .found "bin/ls"
    ∧ (getExecutablePath wEx "zzz").2
        = lookupFirst wEx "zzz" (goSplitChar pathListSeparator "missing:bin")
    ∧ (getExecutablePath wEx "zzz").2 = .err "zzz: not found" :=
  ⟨rfl, lookup_is_first_match wEx "ls" "missing:bin" rfl, by decide,
   lookup_is_first_match wEx "zzz" "missing:bin" rfl, by decide⟩

/-- C6: `exit` with no argument exits 0; with arguments it parses the first
one — exiting with the parsed code on success, and printing a parse error
to stderr and exiting 1 on failure; the arguments after the first never
change the result. -/
theorem exit_code_semantics (cmd : Command) (a : String) (rest rest2 : List String)
    (n : Int) (e : String) :
    (cmd.Args = [] → executeExitCmd cmd = .exited 0 [])
    ∧ (cmd.Args = a :: rest → goAtoi a = .ok n → executeExitCmd cmd = .exited n [])
    ∧ (cmd.Args = a :: rest → goAtoi a = .error e →
        executeExitCmd cmd
          = .exited 1 [(.stderr, "Error reading exit code:  " ++ e ++ "\n")])
    ∧ executeExitCmd ⟨cmd.Exec, a :: rest⟩ = executeExitCmd ⟨cmd.Exec, a :: rest2⟩ := by
  refine ⟨fun h => ?_, fun h ha => ?_, fun h ha => ?_, rfl⟩
  · simp [executeExitCmd, h]
  · simp [executeExitCmd, h, ha]
  · simp [executeExitCmd, h, ha]

/-- Witness for C6: `exit` alone exits 0, `exit 42` exits 42, `exit abc`
reports the parse error and exits 1, and the extra arguments of
`exit 5 x …` change nothing. -/
theorem exit_code_semantics_witness :
    executeExitCmd ⟨"exit", []⟩ = .exited 0 []
    ∧ executeExitCmd ⟨"exit", ["42"]⟩ = .exited 42 []
    ∧ executeExitCmd ⟨"exit", ["abc"]⟩
        = .exited 1 [(.stderr,
            "Error reading exit code:  strconv.Atoi: parsing \"abc\": invalid syntax\n")]
    ∧ executeExitCmd ⟨"exit", ["5", "x"]⟩ = executeExitCmd ⟨"exit", ["5", "y", "z"]⟩ :=
  ⟨(exit_code_semantics ⟨"exit", []⟩ "0" [] [] 0 "").1 rfl,
   (exit_code_semantics ⟨"exit", ["42"]⟩ "42" [] [] 42 "").2.1 rfl (by decide),
   ((exit_code_semantics ⟨"exit", ["abc"]⟩ "abc" [] [] 0
       "strconv.Atoi: parsing \"abc\": invalid syntax").2.2.1 rfl (by decide)).trans
     (by decide),
   (exit_code_semantics ⟨"exit", ["5", "x"]⟩ "5" ["x"] ["y", "z"] 0 "").2.2.2⟩

/-- C7: `cd` with one argument resolves the literal `~` to the
home-directory variable (not through `filepath.Abs`) and moves the working
directory to the resolved path on success; a nonexistent target prints
exactly `cd: <argument>: No such file or directory` to stderr and leaves
the working directory unchanged; any other `chdir` failure prints its
underlying error text and also leaves it unchanged. -/
theorem cd_tilde_and_errors (w : World) (cmd : Command) (a x : String) :
    cmd.Args = [a] → w.absFn a = .ok x →
      ((w.chdir (if a = "~" then w.homeVar else x) = none →
          executeCdCmd w cmd = .normal [] (some (if a = "~" then w.homeVar else x))
          ∧ finalCwd w (executeCdCmd w cmd) = (if a = "~" then w.homeVar else x))
       ∧ (∀ er, w.chdir (if a = "~" then w.homeVar else x) = some er → er.notExist = true →
          executeCdCmd w cmd
            = .normal [(.stderr, "cd: " ++ a ++ ": No such file or directory\n")] none
          ∧ finalCwd w (executeCdCmd w cmd) = w.cwd)
       ∧ (∀ er, w.chdir (if a = "~" then w.homeVar else x) = some er → er.notExist = false →
          executeCdCmd w cmd = .normal [(.stderr, er.msg ++ "\n")] none
          ∧ finalCwd w (executeCdCmd w cmd) = w.cwd)) := by
  intro hargs habs
  rcases cmd with ⟨ex, args⟩
  simp only at hargs
  subst hargs
  refine ⟨fun hnone => ?_, fun er her hne => ?_, fun er her hne => ?_⟩
  · simp [executeCdCmd, habs, hnone, finalCwd]
  · simp [executeCdCmd, habs, her, hne, finalCwd, goJoin]
  · simp [executeCdCmd, habs, her, hne, finalCwd]

/-- Witness for C7: in the example world `cd ~` moves to `/home/user`, and
`cd /nope` prints the claimed message. -/
theorem cd_tilde_and_errors_witness :
    executeCdCmd wEx ⟨"cd", ["~"]⟩ = .normal [] (some "/home/user")
    ∧ executeCdCmd wEx ⟨"cd", ["/nope"]⟩
        = .normal [(.stderr, "cd: /nope: No such file or directory\n")] none := by
  constructor
  · have h := ((cd_tilde_and_errors wEx ⟨"cd", ["~"]⟩ "~" "/start/~") rfl (by decide)).1
      (by decide)
    exact h.1.trans (by decide)
  · have h := ((cd_tilde_and_errors wEx ⟨"cd", ["/nope"]⟩ "/nope" "/nope") rfl
      (by decide)).2.1 ⟨true, "chdir /nope: no such file or directory"⟩ (by decide) rfl
    exact h.1.trans (by decide)

end Gosh
